import Mathlib

/-!
Verification development for the Reddit pet-adoption engagement pipeline.

Each Python function under scrutiny is shallow-embedded as an executable
Lean definition over lists and rationals, translated directly from the
source; theorems about the claims of the specification follow after the
definitions.
-/

set_option autoImplicit false

namespace PetProj

/-! ### Post-set merger (src/utils/data-collection/combine_post.py) -/

/-- One row of a post CSV: its `post_id` key plus the remaining field
values, abstracted as a payload of an arbitrary type. -/
structure MergePost (α : Type) where
  post_id : Nat
  fields : α
deriving DecidableEq

/-- `combine_csv_files` from combine_post.py: compute the duplicate ids
(intersection of the two id sets), drop the first-pass rows whose id
collides with the main dataset, and concatenate main rows first. -/
def combine_csv_files {α : Type} (df_first df_main : List (MergePost α)) :
    List (MergePost α) :=
  let duplicate_ids :=
    (df_first.map (fun r => r.post_id)).filter
      (fun i => i ∈ df_main.map (fun r => r.post_id))
  let df_first2 :=
    if duplicate_ids.length > 0 then
      df_first.filter (fun r => ¬ r.post_id ∈ duplicate_ids)
    else df_first
  df_main ++ df_first2

/-! ### Comment filter/merger (src/utils/data-collection/filter_comment.py) -/

/-- A raw comment row from `comment_first.csv`: the fields that the
filter/merge utility keys on. -/
structure RawComment where
  comment_id : Nat
  post_id : Nat
  body : List Char
deriving DecidableEq

/-- A transformed comment row carrying the canonical schema plus the
species tag. -/
structure TComment where
  comment_id : Nat
  post_id : Nat
  body : List Char
  pet_type : List Char
deriving DecidableEq

/-- The column-selection reshape in filter_comment.py that builds
`cat_comments_transformed` / `dog_comments_transformed`. -/
def transformComment (pet : List Char) (c : RawComment) : TComment :=
  { comment_id := c.comment_id, post_id := c.post_id,
    body := c.body, pet_type := pet }

/-- One species path of `filter_and_transform_comments`: filter the raw
comments to those whose parent post id is in the species post-id set,
reshape them, drop those whose comment id already occurs in the existing
per-species file, and append the remainder to the existing rows. -/
def filter_and_transform_comments (pet : List Char)
    (comments_df : List RawComment) (post_ids : List Nat)
    (existing_df : List TComment) : List TComment :=
  let filtered := comments_df.filter (fun c => c.post_id ∈ post_ids)
  let transformed := filtered.map (transformComment pet)
  let existing_ids := existing_df.map (fun c => c.comment_id)
  let duplicates :=
    (transformed.map (fun c => c.comment_id)).filter
      (fun i => i ∈ existing_ids)
  let kept := transformed.filter (fun c => ¬ c.comment_id ∈ duplicates)
  existing_df ++ kept

/-! ### Suggestion generator (src/gpt_classifier_suggester/gpt/suggestion.py) -/

/-- A chat message as returned by the completion API. -/
structure ChatMessage where
  content : List Char
deriving DecidableEq

/-- One completion choice. -/
structure ChatChoice where
  message : ChatMessage
deriving DecidableEq

/-- A completion API response: a list of choices. -/
structure ChatResponse where
  choices : List ChatChoice
deriving DecidableEq

/-- The outcome of the external `client.chat.completions.create` call:
either a normal response or a raised exception carrying a message. -/
def CallOutcome : Type := Except (List Char) ChatResponse

/-- The text of the failure string built in the `except` branch of
`generate_gpt_suggestions`: a fixed marker followed by `str(e)`. -/
def gptFailText (e : List Char) : List Char :=
  ("GPT suggestion failed: ".data) ++ e

/-- The message of the IndexError raised by `response.choices[0]` when the
response carries no choice. -/
def indexErrorMsg : List Char := ("list index out of range".data)

/-- The body of the `try` block of `generate_gpt_suggestions`: propagate
the call outcome, then index the first choice (raising when absent) and
read its message content. -/
def gptTryBody (call : CallOutcome) : Except (List Char) (List Char) :=
  match call with
  | Except.error e => Except.error e
  | Except.ok resp =>
    match resp.choices with
    | [] => Except.error indexErrorMsg
    | c :: _ => Except.ok c.message.content

/-- `generate_gpt_suggestions` from suggestion.py, with the external call
outcome passed explicitly: every exception of the `try` body is caught and
replaced by the user-facing failure string, so the function always returns
a plain string. The `text`, `pet_type` and `prob` arguments feed only the
prompt template and do not influence the error handling. -/
def generate_gpt_suggestions (text pet_type : List Char) (prob : ℚ)
    (call : CallOutcome) : List Char :=
  let _prompt := (text, pet_type, decide (prob < 1/2))
  match gptTryBody call with
  | Except.ok s => s
  | Except.error e => gptFailText e

/-! ### Interactive web application logging (streamlit_app.py) -/

/-- File-open modes relevant to `logging.FileHandler`. -/
inductive FileMode where
  | append
  | write
deriving DecidableEq

/-- The mode passed to the `logging.FileHandler` for
`logs/streamlit_app.log` in streamlit_app.py. -/
def streamlit_log_mode : FileMode := FileMode.write

/-- The mode passed to the `logging.FileHandler` for `logs/main.log` in
src/bin/main.py. -/
def main_log_mode : FileMode := FileMode.append

/-- Contents of a log file after a process start: an append-mode handler
keeps the previous contents and adds the new entries, a write-mode handler
truncates and keeps only the new entries. -/
def logFileAfterRun (mode : FileMode) (old new : List (List Char)) :
    List (List Char) :=
  match mode with
  | FileMode.append => old ++ new
  | FileMode.write => new

/-! ### Text preprocessing (src/utils/data_preprocessing/preprocessing.py) -/

/-- The regex whitespace class `\s` over the ASCII range the pipeline
encounters: space, tab, newline, carriage return, vertical tab, form
feed. -/
def isWs (c : Char) : Bool :=
  c = ' ' || c = '\t' || c = '\n' || c = '\r' || c = '\x0b' || c = '\x0c'

/-- `str.lower` over the character list. -/
def pyLower (s : List Char) : List Char := s.map Char.toLower

/-- The left-to-right scan realizing `re.sub(r"http\S+|www\S+", "", text)`.
The Boolean state records that the scanner is inside a match, discarding
the greedy run of non-whitespace characters; a literal `http` or `www`
followed by at least one non-whitespace character starts a match. -/
def subUrlAux : Bool → List Char → List Char
  | _, [] => []
  | true, c :: cs =>
    if isWs c then c :: subUrlAux false cs else subUrlAux true cs
  | false, 'h' :: 't' :: 't' :: 'p' :: d :: cs =>
    if isWs d then 'h' :: subUrlAux false ('t' :: 't' :: 'p' :: d :: cs)
    else subUrlAux true cs
  | false, 'w' :: 'w' :: 'w' :: d :: cs =>
    if isWs d then 'w' :: subUrlAux false ('w' :: 'w' :: d :: cs)
    else subUrlAux true cs
  | false, c :: cs => c :: subUrlAux false cs

/-- `re.sub(r"http\S+|www\S+", "", text)`. -/
def subUrl (l : List Char) : List Char := subUrlAux false l

/-- The lazy inner scan of `re.sub(r"\[.*?\]\(.*?\)", "", text)` looking
for the first closing parenthesis: `.` does not cross a newline, so a
newline aborts the scan. Returns the remainder after the parenthesis. -/
def findParen : List Char → Option (List Char)
  | [] => none
  | ')' :: rest => some rest
  | '\n' :: _ => none
  | _ :: rest => findParen rest

/-- Scan, over the characters following an opening bracket, for a `](`
separator whose parenthesis part completes; on an incomplete candidate the
lazy quantifier backtracks to a later separator. A newline aborts. -/
def findMd : List Char → Option (List Char)
  | [] => none
  | '\n' :: _ => none
  | ']' :: '(' :: rest =>
    (match findParen rest with
     | some r => some r
     | none => findMd ('(' :: rest))
  | _ :: rest => findMd rest

/-- One fuelled left-to-right pass of `re.sub(r"\[.*?\]\(.*?\)", "",
text)`: at each opening bracket try to complete a markdown-link match and
drop it, otherwise keep the character. Every step strictly shortens the
list, so fuel equal to the length never runs out. -/
def subMdF : Nat → List Char → List Char
  | 0, l => l
  | _ + 1, [] => []
  | fuel + 1, '[' :: rest =>
    (match findMd rest with
     | some r => subMdF fuel r
     | none => '[' :: subMdF fuel rest)
  | fuel + 1, c :: rest => c :: subMdF fuel rest

/-- `re.sub(r"\[.*?\]\(.*?\)", "", text)`. -/
def subMd (l : List Char) : List Char := subMdF l.length l

/-- The scan realizing `re.sub(r"\s+", " ", text)`: the Boolean state
records that the scanner is inside a whitespace run whose single
replacement space has already been emitted. -/
def squeezeAux : Bool → List Char → List Char
  | _, [] => []
  | true, c :: cs =>
    if isWs c then squeezeAux true cs else c :: squeezeAux false cs
  | false, c :: cs =>
    if isWs c then ' ' :: squeezeAux true cs else c :: squeezeAux false cs

/-- `re.sub(r"\s+", " ", text)`. -/
def squeezeWs (l : List Char) : List Char := squeezeAux false l

/-- `str.strip()`: drop whitespace from both ends. -/
def pyStrip (l : List Char) : List Char :=
  ((l.dropWhile isWs).reverse.dropWhile isWs).reverse

/-- `clean_text` from preprocessing.py: lower-case, strip `http`/`www`
hyperlinks, strip markdown bracket-parenthesis links, collapse whitespace
runs to single spaces, trim the ends. -/
def clean_text (s : List Char) : List Char :=
  pyStrip (squeezeWs (subMd (subUrl (pyLower s))))

/-- The Python substring test `needle in hay`. -/
def containsSub (needle : List Char) : List Char → Bool
  | [] => needle.isEmpty
  | c :: cs => needle.isPrefixOf (c :: cs) || containsSub needle cs

/-- The 8-term adoption keyword list of preprocessing.py. -/
def ADOPTION_KEYWORDS : List (List Char) :=
  ["adopt".data, "adoption".data, "adopted".data, "rescue".data,
   "rescued".data, "rehome".data, "shelter".data, "foster".data]

/-- The needle of the link test. -/
def httpLit : List Char := "http".data

/-- The needle of the question test. -/
def qmarkLit : List Char := "?".data

/-- The token count of `str.split()`: number of maximal non-whitespace
runs. The Boolean state records being inside a token. -/
def countTokensAux : Bool → List Char → Nat
  | _, [] => 0
  | inTok, c :: cs =>
    if isWs c then countTokensAux false cs
    else (if inTok then 0 else 1) + countTokensAux true cs

/-- `len(text.split())`. -/
def countTokens (l : List Char) : Nat := countTokensAux false l

/-- Booleans as the 0/1 integers produced by `int(...)`. -/
def boolToInt (b : Bool) : Nat := if b then 1 else 0

/-- A row of the input dataframe of `preprocess_comments`: its `body`
column. -/
structure CRow where
  body : List Char
deriving DecidableEq

/-- A row of the output of `preprocess_comments`: the (overwritten) `body`
column of the original frame concatenated with the columns produced by
`extract_features`. -/
structure FeatRow where
  body : List Char
  cleaned_text : List Char
  num_words : Nat
  num_exclamations : Nat
  has_link : Nat
  has_question : Nat
  contains_adopt_keywords : Nat
  sentiment_score : ℚ
  adjectives : List (List Char)
  verbs : List (List Char)
deriving DecidableEq

/-- `extract_features` from preprocessing.py. The spaCy part-of-speech
extraction and the VADER compound score are external library calls, passed
in as abstract functions `nlpAdj`, `nlpVerb` and `vader`; every field is
computed from `row.body` exactly as in the source (`text = row["body"]`). -/
def extract_features (nlpAdj nlpVerb : List Char → List (List Char))
    (vader : List Char → ℚ) (row : CRow) : FeatRow :=
  let text := row.body
  { body := row.body
    cleaned_text := text
    num_words := countTokens text
    num_exclamations := text.count '!'
    has_link := boolToInt (containsSub httpLit row.body)
    has_question := boolToInt (containsSub qmarkLit row.body)
    contains_adopt_keywords :=
      boolToInt (ADOPTION_KEYWORDS.any (fun k => containsSub k text))
    sentiment_score := vader text
    adjectives := nlpAdj text
    verbs := nlpVerb text }

/-- `preprocess_comments` from preprocessing.py: first overwrite the
`body` column with its cleaned text, then apply `extract_features`
row-wise and column-concatenate the result onto the frame. -/
def preprocess_comments (nlpAdj nlpVerb : List Char → List (List Char))
    (vader : List Char → ℚ) (df : List CRow) : List FeatRow :=
  df.map (fun r =>
    extract_features nlpAdj nlpVerb vader { body := clean_text r.body })

/-! ### Cat-vs-dog analyzer data preparation (src/mod/cat_vs_dog.py) -/

/-- `WORDS_TO_EXCLUDE` from cat_vs_dog.py. -/
def WORDS_TO_EXCLUDE : List (List Char) := ["kitten".data, "puppy".data]

/-- An input row of `load_and_prepare_data`. The `adjectives`/`verbs`
columns hold either a stored textual list representation — modelled as
`some` of the list `ast.literal_eval` parses it back to — or a non-string
value, modelled as `none`. -/
structure StyleRow where
  pet_type : List Char
  adjectives : Option (List (List Char))
  verbs : Option (List (List Char))
deriving DecidableEq

/-- An output row of `load_and_prepare_data`. -/
structure StyleOut where
  pet_type : List Char
  label : Option Nat
  adjectives : List (List Char)
  verbs : List (List Char)
  style_text : List Char
  verb_text : List Char
deriving DecidableEq

/-- `ast.literal_eval(x) if isinstance(x, str) else []`. -/
def literalEvalList : Option (List (List Char)) → List (List Char)
  | some ws => ws
  | none => []

/-- `" ".join(words)`. -/
def joinSpace : List (List Char) → List Char
  | [] => []
  | [w] => w
  | w :: ws => w ++ ' ' :: joinSpace ws

/-- `df["pet_type"].map({"cat": 0, "dog": 1})`: unmapped values become
missing. -/
def petLabel (p : List Char) : Option Nat :=
  if p = "cat".data then some 0
  else if p = "dog".data then some 1
  else none

/-- The per-row work of `load_and_prepare_data`: parse the adjective
column, drop the excluded words from it (case-insensitively), parse the
verb column as is, and join both into space-separated strings. -/
def prepareStyleRow (r : StyleRow) : StyleOut :=
  let adjs :=
    (literalEvalList r.adjectives).filter
      (fun w => ¬ pyLower w ∈ WORDS_TO_EXCLUDE)
  let vrbs := literalEvalList r.verbs
  { pet_type := r.pet_type
    label := petLabel r.pet_type
    adjectives := adjs
    verbs := vrbs
    style_text := joinSpace adjs
    verb_text := joinSpace vrbs }

/-- `load_and_prepare_data` from cat_vs_dog.py: concatenate the two
datasets and derive the label, parsed lists and joined text columns. -/
def load_and_prepare_data (cat_df dog_df : List StyleRow) : List StyleOut :=
  (cat_df ++ dog_df).map prepareStyleRow

/-! ### Engagement labeling (src/mod/new_engagement_classifier.py) -/

/-- Insertion into an ascending list. -/
def insertQ (x : ℚ) : List ℚ → List ℚ
  | [] => [x]
  | y :: ys => if x ≤ y then x :: y :: ys else y :: insertQ x ys

/-- Ascending insertion sort, the order pandas quantiles are taken in. -/
def sortQ : List ℚ → List ℚ
  | [] => []
  | x :: xs => insertQ x (sortQ xs)

/-- The index `⌊(n-1)·q⌋` of pandas linear interpolation, for the
non-negative positions arising from a non-empty series. -/
def quantIdx (h : ℚ) : Nat := h.num.toNat / h.den

/-- pandas `Series.quantile(q)` with the default linear interpolation:
with the values sorted ascending and `h = (n-1)·q`, interpolate between
the values at positions `⌊h⌋` and `⌊h⌋+1`. Used only on non-empty
series, as in the source. -/
def quantile (l : List ℚ) (q : ℚ) : ℚ :=
  let s := sortQ l
  let n := s.length
  let h : ℚ := q * ((n : ℚ) - 1)
  let f : Nat := quantIdx h
  let g : ℚ := h - (f : ℚ)
  let vf := s.getD f 0
  let vf1 := s.getD (f + 1) vf
  vf + g * (vf1 - vf)

/-- A post row as seen by `label_high_engagement`: its `engagement_score`
and its `cleaned_text` (`none` models a missing value that `dropna`
removes). -/
structure LPost where
  engagement_score : ℚ
  cleaned_text : Option (List Char)
deriving DecidableEq

/-- `df["engagement_score"].quantile(0.75)`. -/
def labelQ75 (df : List LPost) : ℚ :=
  quantile (df.map (fun r => r.engagement_score)) (3 / 4)

/-- `df["engagement_score"].quantile(0.50)`. -/
def labelQ50 (df : List LPost) : ℚ :=
  quantile (df.map (fun r => r.engagement_score)) (1 / 2)

/-- `label_high_engagement` from new_engagement_classifier.py: label `1`
at or above the 75th percentile, `0` at or below the 50th, missing in
between; then drop the rows whose label or cleaned text is missing. -/
def label_high_engagement (df : List LPost) : List (LPost × Nat) :=
  let q75 := labelQ75 df
  let q50 := labelQ50 df
  let labeled := df.map (fun r =>
    (r, if r.engagement_score ≥ q75 then some 1
        else if r.engagement_score ≤ q50 then some 0
        else (none : Option Nat)))
  (labeled.filter (fun p => p.2.isSome && p.1.cleaned_text.isSome)).map
    (fun p => (p.1, p.2.getD 0))

/-- Two adjacent characters are not both whitespace — the shape invariant
of whitespace-collapsed text. -/
def noWsPair (a b : Char) : Prop := ¬ (isWs a = true ∧ isWs b = true)

/-! ### Concrete instances used in witnesses and counterexamples -/

/-- A labeled post with the given score and an empty (present) cleaned
text. -/
def lpRow (x : ℚ) : LPost := { engagement_score := x, cleaned_text := some [] }

/-- A five-row dataset whose 50th percentile (5) is attained by a row and
strictly below its 75th percentile (100). -/
def dfQuantEdge : List LPost := [lpRow 0, lpRow 5, lpRow 5, lpRow 100, lpRow 100]

/-- A dataset in which every row has the same engagement score and one
row has a missing cleaned text. -/
def dfConstant : List LPost :=
  [lpRow 7, { engagement_score := 7, cleaned_text := none }, lpRow 7]

/-- A text whose markdown-link removal splices together a hyperlink. -/
def mdSpliceText : List Char := "ht[x](y)tp://a".data

/-- A fixed point of the cleaning passes. -/
def plainGreeting : List Char := "hello world".data

/-- A body whose link and question mark are both inside the URL that
cleaning strips. -/
def linkQuestionBody : List Char := "see http://a.com?x".data

/-- A trivial stand-in for the spaCy part-of-speech extraction. -/
def noPos : List Char → List (List Char) := fun _ => []

/-- A trivial stand-in for the VADER compound score. -/
def zeroSentiment : List Char → ℚ := fun _ => 0

/-- First-pass posts with ids 1, 2, 3 (the spec example's A, B, C). -/
def firstPosts : List (MergePost Nat) := [⟨1, 10⟩, ⟨2, 11⟩, ⟨3, 12⟩]

/-- Main posts with ids 2, 3, 4 carrying different field values. -/
def mainPosts : List (MergePost Nat) := [⟨2, 21⟩, ⟨3, 22⟩, ⟨4, 23⟩]

/-- The species tag of the cat path. -/
def catLit : List Char := "cat".data

/-- An incoming comment file carrying the same comment id twice. -/
def dupComments : List RawComment := [⟨1, 10, []⟩, ⟨1, 10, []⟩]

/-- An incoming comment file with distinct comment ids, one off-species. -/
def freshComments : List RawComment := [⟨1, 10, []⟩, ⟨2, 99, []⟩]

/-- A pre-existing per-species comment file holding comment id 5. -/
def existingCatComments : List TComment := [⟨5, 10, [], "cat".data⟩]

/-- A style row whose verb column parses to the excluded word. -/
def puppyVerbRow : StyleRow :=
  { pet_type := "dog".data,
    adjectives := some ["fluffy".data],
    verbs := some ["puppy".data] }

/-- The excluded word appearing in `puppyVerbRow`'s verbs. -/
def puppyLit : List Char := "puppy".data

/-- An exception message for the suggestion-generator witness. -/
def boomMsg : List Char := "boom".data

/-- Log lines present before a restart. -/
def oldLogLines : List (List Char) := ["old entry".data]

/-- Log lines written after a restart. -/
def newLogLines : List (List Char) := ["new entry".data]

/-! ## Theorems -/

/-- `combine_csv_files` collapses to: keep all main rows, and the
first-pass rows whose id does not occur in the main dataset. -/
theorem combine_csv_files_eq {α : Type} (df_first df_main : List (MergePost α)) :
    combine_csv_files df_first df_main =
      df_main ++ df_first.filter
        (fun r => ¬ r.post_id ∈ df_main.map (fun s => s.post_id)) := by
  unfold combine_csv_files
  simp only []
  by_cases h : ((df_first.map (fun r => r.post_id)).filter
      (fun i => i ∈ df_main.map (fun r => r.post_id))).length > 0
  · rw [if_pos h]
    congr 1
    apply List.filter_congr
    intro r hr
    simp only [decide_eq_decide]
    have hiff : (r.post_id ∈ (df_first.map (fun s => s.post_id)).filter
        (fun i => i ∈ df_main.map (fun t => t.post_id))) ↔
        r.post_id ∈ df_main.map (fun s => s.post_id) := by
      simp only [List.mem_filter, List.mem_map, decide_eq_true_eq]
      constructor
      · rintro ⟨_, h2⟩
        exact h2
      · intro h2
        exact ⟨⟨r, hr, rfl⟩, h2⟩
    exact not_congr hiff
  · rw [if_neg h]
    have hnil : ((df_first.map (fun r => r.post_id)).filter
        (fun i => i ∈ df_main.map (fun r => r.post_id))) = [] := by
      cases hl : ((df_first.map (fun r => r.post_id)).filter
          (fun i => i ∈ df_main.map (fun r => r.post_id))) with
      | nil => rfl
      | cons a l => rw [hl] at h; simp at h
    congr 1
    symm
    apply List.filter_eq_self.mpr
    intro r hr
    simp only [decide_eq_true_eq]
    intro hmain
    have hmem : r.post_id ∈ ((df_first.map (fun s => s.post_id)).filter
        (fun i => i ∈ df_main.map (fun s => s.post_id))) :=
      List.mem_filter.mpr ⟨List.mem_map.mpr ⟨r, hr, rfl⟩, by simpa using hmain⟩
    rw [hnil] at hmem
    exact absurd hmem (List.not_mem_nil _)

/-- C4: the post-set merger's output id set is exactly the union of the
two input id sets, and every output row whose id occurs in both inputs is
a row of the main dataset (main wins on conflict); first-pass-only and
main-only rows are preserved. -/
theorem combine_csv_files_union_main_wins {α : Type}
    (df_first df_main : List (MergePost α)) :
    (∀ i : Nat,
      (i ∈ (combine_csv_files df_first df_main).map (fun r => r.post_id)) ↔
        (i ∈ df_first.map (fun r => r.post_id) ∨
          i ∈ df_main.map (fun r => r.post_id))) ∧
    (∀ r, r ∈ combine_csv_files df_first df_main →
      r.post_id ∈ df_main.map (fun s => s.post_id) → r ∈ df_main) ∧
    (∀ r, r ∈ df_main → r ∈ combine_csv_files df_first df_main) ∧
    (∀ r, r ∈ df_first → ¬ r.post_id ∈ df_main.map (fun s => s.post_id) →
      r ∈ combine_csv_files df_first df_main) := by
  rw [combine_csv_files_eq]
  refine ⟨?_, ?_, ?_, ?_⟩
  · intro i
    simp only [List.map_append, List.mem_append, List.mem_map,
      List.mem_filter, decide_eq_true_eq]
    constructor
    · rintro (⟨r, hr, rfl⟩ | ⟨r, ⟨hr, _⟩, rfl⟩)
      · exact Or.inr ⟨r, hr, rfl⟩
      · exact Or.inl ⟨r, hr, rfl⟩
    · rintro (⟨r, hr, rfl⟩ | ⟨r, hr, rfl⟩)
      · by_cases hm : r.post_id ∈ df_main.map (fun s => s.post_id)
        · rcases List.mem_map.mp hm with ⟨s, hs, heq⟩
          exact Or.inl ⟨s, hs, heq⟩
        · exact Or.inr ⟨r, ⟨hr, by simpa using hm⟩, rfl⟩
      · exact Or.inl ⟨r, hr, rfl⟩
  · intro r hr hmain
    rcases List.mem_append.mp hr with h | h
    · exact h
    · rcases List.mem_filter.mp h with ⟨_, hnot⟩
      simp only [decide_eq_true_eq] at hnot
      exact absurd hmain hnot
  · intro r hr
    exact List.mem_append.mpr (Or.inl hr)
  · intro r hr hnot
    refine List.mem_append.mpr (Or.inr ?_)
    exact List.mem_filter.mpr ⟨hr, by simpa using hnot⟩

/-- C4 witness: on the spec's example (first ids {1,2,3}, main ids
{2,3,4}, conflicting values for 2 and 3) the merged output covers ids
1–4, both conflicting rows come from the main file, and the
first-pass-only row survives. -/
theorem combine_csv_files_union_main_wins_witness :
    ((2 : Nat) ∈ (combine_csv_files firstPosts mainPosts).map (fun r => r.post_id)) ∧
    (⟨2, 21⟩ : MergePost Nat) ∈ mainPosts ∧
    (∀ r, r ∈ combine_csv_files firstPosts mainPosts →
      r.post_id ∈ mainPosts.map (fun s => s.post_id) → r ∈ mainPosts) ∧
    (⟨1, 10⟩ : MergePost Nat) ∈ combine_csv_files firstPosts mainPosts := by
  refine ⟨?_, by decide, (combine_csv_files_union_main_wins firstPosts mainPosts).2.1, ?_⟩
  · exact ((combine_csv_files_union_main_wins firstPosts mainPosts).1 2).mpr
      (Or.inl (by decide))
  · exact (combine_csv_files_union_main_wins firstPosts mainPosts).2.2.2
      ⟨1, 10⟩ (by decide) (by decide)

/-- The comment filter/merger collapses to: existing rows, followed by
the transformed incoming rows whose comment id does not occur in the
existing file. -/
theorem filter_and_transform_comments_eq (pet : List Char)
    (comments : List RawComment) (post_ids : List Nat)
    (existing : List TComment) :
    filter_and_transform_comments pet comments post_ids existing =
      existing ++
        ((comments.filter (fun c => c.post_id ∈ post_ids)).map
            (transformComment pet)).filter
          (fun c => ¬ c.comment_id ∈ existing.map (fun e => e.comment_id)) := by
  unfold filter_and_transform_comments
  simp only []
  congr 1
  apply List.filter_congr
  intro c hc
  simp only [decide_eq_decide]
  have hiff : (c.comment_id ∈
      (((comments.filter (fun d => d.post_id ∈ post_ids)).map
          (transformComment pet)).map (fun d => d.comment_id)).filter
        (fun i => i ∈ existing.map (fun e => e.comment_id))) ↔
      c.comment_id ∈ existing.map (fun e => e.comment_id) := by
    simp only [List.mem_filter, decide_eq_true_eq]
    constructor
    · rintro ⟨_, h2⟩
      exact h2
    · intro h2
      exact ⟨List.mem_map.mpr ⟨c, hc, rfl⟩, h2⟩
  exact not_congr hiff

/-- C5 (amended part): the merger never reintroduces a comment id that the
pre-existing per-species file already holds — for any such id the combined
output carries exactly as many rows as the existing file did — and when
both the incoming comment file and the existing file carry distinct
comment ids, every comment id occurs at most once in the combined
output. -/
theorem filter_and_transform_comments_no_reintroduction
    (pet : List Char) (comments : List RawComment) (post_ids : List Nat)
    (existing : List TComment) :
    (∀ i, i ∈ existing.map (fun c => c.comment_id) →
      (filter_and_transform_comments pet comments post_ids existing).countP
          (fun c => c.comment_id == i) =
        existing.countP (fun c => c.comment_id == i)) ∧
    ((comments.map (fun c => c.comment_id)).Nodup →
      (existing.map (fun c => c.comment_id)).Nodup →
      ((filter_and_transform_comments pet comments post_ids existing).map
          (fun c => c.comment_id)).Nodup) := by
  rw [filter_and_transform_comments_eq]
  have keptNotIn : ∀ c ∈ ((comments.filter (fun d => d.post_id ∈ post_ids)).map
      (transformComment pet)).filter
        (fun d => ¬ d.comment_id ∈ existing.map (fun e => e.comment_id)),
      ¬ c.comment_id ∈ existing.map (fun e => e.comment_id) := by
    intro c hc
    rcases List.mem_filter.mp hc with ⟨_, hnot⟩
    simpa using hnot
  constructor
  · intro i hi
    rw [List.countP_append]
    have hzero : (((comments.filter (fun d => d.post_id ∈ post_ids)).map
        (transformComment pet)).filter
          (fun d => ¬ d.comment_id ∈ existing.map (fun e => e.comment_id))).countP
        (fun c => c.comment_id == i) = 0 := by
      rw [List.countP_eq_zero]
      intro c hc
      simp only [beq_iff_eq]
      intro hEq
      exact keptNotIn c hc (hEq ▸ hi)
    rw [hzero, Nat.add_zero]
  · intro hcn hen
    rw [List.map_append]
    apply List.Nodup.append hen
    · have h1 : List.Sublist
          ((((comments.filter (fun d => d.post_id ∈ post_ids)).map
            (transformComment pet)).filter
              (fun d => ¬ d.comment_id ∈ existing.map (fun e => e.comment_id))).map
              (fun c => c.comment_id))
          (((comments.filter (fun d => d.post_id ∈ post_ids)).map
            (transformComment pet)).map (fun c => c.comment_id)) :=
        (List.filter_sublist _).map _
      have h2 : ((comments.filter (fun d => d.post_id ∈ post_ids)).map
          (transformComment pet)).map (fun c => c.comment_id) =
          (comments.filter (fun d => d.post_id ∈ post_ids)).map
            (fun c => c.comment_id) := by
        rw [List.map_map]
        rfl
      have h3 : List.Sublist
          ((comments.filter (fun d => d.post_id ∈ post_ids)).map
            (fun c => c.comment_id))
          (comments.map (fun c => c.comment_id)) :=
        (List.filter_sublist _).map _
      rw [h2] at h1
      exact (h1.trans h3).nodup hcn
    · intro a ha hb
      rcases List.mem_map.mp hb with ⟨c, hc, rfl⟩
      exact keptNotIn c hc ha

/-- C5 counterexample: when the incoming comment file itself repeats a
comment id (id 1 twice, both under a cat post, with an empty existing
file), the combined output carries that comment id twice — the claim's
"at most 1 row per comment id" fails. -/
theorem filter_comment_duplicate_counterexample :
    ((filter_and_transform_comments catLit dupComments [10] []).countP
        (fun c => c.comment_id == 1)) = 2 := by decide

/-- C5 witness: a concrete run — existing id 5, incoming distinct ids 1
(cat post) and 2 (off-species post) — in which id 5 keeps exactly one row
and all output ids are distinct. -/
theorem filter_and_transform_comments_no_reintroduction_witness :
    ((5 : Nat) ∈ existingCatComments.map (fun c => c.comment_id) →
      (filter_and_transform_comments catLit freshComments [10]
          existingCatComments).countP (fun c => c.comment_id == 5) =
        existingCatComments.countP (fun c => c.comment_id == 5)) ∧
    ((filter_and_transform_comments catLit freshComments [10]
        existingCatComments).map (fun c => c.comment_id)).Nodup := by
  constructor
  · exact fun h => (filter_and_transform_comments_no_reintroduction catLit
      freshComments [10] existingCatComments).1 5 h
  · exact (filter_and_transform_comments_no_reintroduction catLit
      freshComments [10] existingCatComments).2 (by decide) (by decide)

/-- C6: `generate_gpt_suggestions` catches every failure of the external
completion call — a raised exception, and also a response with no choice —
and returns the user-facing failure string in its place; on a successful
response it returns the first choice's content verbatim. Its codomain is a
plain string, so no exception reaches the caller. -/
theorem generate_gpt_suggestions_error_handling
    (text pet_type : List Char) (prob : ℚ) (call : CallOutcome) :
    (∀ e, call = Except.error e →
      generate_gpt_suggestions text pet_type prob call = gptFailText e) ∧
    (∀ resp, call = Except.ok resp → resp.choices = [] →
      generate_gpt_suggestions text pet_type prob call =
        gptFailText indexErrorMsg) ∧
    (∀ resp c rest, call = Except.ok resp → resp.choices = c :: rest →
      generate_gpt_suggestions text pet_type prob call =
        c.message.content) := by
  refine ⟨?_, ?_, ?_⟩
  · rintro e rfl
    rfl
  · rintro resp rfl hres
    simp [generate_gpt_suggestions, gptTryBody, hres]
  · rintro resp c rest rfl hres
    simp [generate_gpt_suggestions, gptTryBody, hres]

/-- C6 witness: a concrete failing call yields the user-facing failure
string. -/
theorem generate_gpt_suggestions_error_handling_witness :
    generate_gpt_suggestions [] [] 0 (Except.error boomMsg) =
      gptFailText boomMsg :=
  (generate_gpt_suggestions_error_handling [] [] 0
    (Except.error boomMsg)).1 boomMsg rfl

/-- C8 counterexample: the streamlit application's log handler is opened
in write mode, not append mode, and after a restart a previous log entry
is gone from the file. -/
theorem streamlit_log_mode_counterexample :
    streamlit_log_mode ≠ FileMode.append ∧
    logFileAfterRun streamlit_log_mode oldLogLines newLogLines =
      newLogLines ∧
    ¬ ("old entry".data ∈
        logFileAfterRun streamlit_log_mode oldLogLines newLogLines) := by
  decide

/-- C8 (amended): the streamlit application's log file is opened in write
(truncate) mode, so each process start keeps only the entries of the new
run and every entry of an earlier start that is not rewritten is lost
(unlike the batch CLI's `main.log`, which is opened in append mode and
keeps earlier entries). -/
theorem streamlit_log_truncates (old new : List (List Char)) :
    logFileAfterRun streamlit_log_mode old new = new ∧
    (∀ e, e ∈ old → ¬ e ∈ new →
      ¬ e ∈ logFileAfterRun streamlit_log_mode old new) ∧
    logFileAfterRun main_log_mode old new = old ++ new := by
  refine ⟨rfl, ?_, rfl⟩
  intro e _ hnew
  simpa [logFileAfterRun, streamlit_log_mode] using hnew

/-- C8 witness: the amended statement at a concrete pair of runs. -/
theorem streamlit_log_truncates_witness :
    logFileAfterRun streamlit_log_mode oldLogLines newLogLines =
      newLogLines ∧
    ¬ ("old entry".data ∈
        logFileAfterRun streamlit_log_mode oldLogLines newLogLines) := by
  refine ⟨(streamlit_log_truncates oldLogLines newLogLines).1, ?_⟩
  exact (streamlit_log_truncates oldLogLines newLogLines).2.1
    ("old entry".data) (by decide) (by decide)

/-- C7 counterexample: a row whose stored verb list is `['puppy']` comes
out of `load_and_prepare_data` with `verb_text` equal to the excluded word
`puppy` itself — the verb column is not filtered, only the adjective
column is. -/
theorem verb_text_excluded_word_counterexample :
    (load_and_prepare_data [] [puppyVerbRow]).map (fun r => r.verb_text) =
      [puppyLit] ∧
    puppyLit ∈ WORDS_TO_EXCLUDE ∧
    (load_and_prepare_data [] [puppyVerbRow]).map (fun r => r.style_text) =
      ["fluffy".data] := by
  decide

/-- C7 (amended): `load_and_prepare_data` drops the excluded terms
(case-insensitively) from the adjective lists only, so `style_text` is
built from adjectives free of them, while the verb lists — and hence
`verb_text` — are joined unfiltered, exactly as parsed from the stored
representation. -/
theorem load_and_prepare_excludes_adjectives_only
    (cat_df dog_df : List StyleRow) :
    ∀ r, r ∈ load_and_prepare_data cat_df dog_df →
      (∀ w, w ∈ r.adjectives → ¬ pyLower w ∈ WORDS_TO_EXCLUDE) ∧
      r.style_text = joinSpace r.adjectives ∧
      r.verb_text = joinSpace r.verbs ∧
      (∃ s, (s ∈ cat_df ∨ s ∈ dog_df) ∧ r.verbs = literalEvalList s.verbs) := by
  intro r hr
  rcases List.mem_map.mp hr with ⟨s, hs, rfl⟩
  refine ⟨?_, rfl, rfl, s, List.mem_append.mp hs, rfl⟩
  intro w hw
  have := (List.mem_filter.mp hw).2
  simpa using this

/-- C7 witness: the amended statement at the concrete row whose verbs hold
the excluded word. -/
theorem load_and_prepare_excludes_adjectives_only_witness :
    (∀ w, w ∈ (prepareStyleRow puppyVerbRow).adjectives →
      ¬ pyLower w ∈ WORDS_TO_EXCLUDE) ∧
    (prepareStyleRow puppyVerbRow).style_text =
      joinSpace (prepareStyleRow puppyVerbRow).adjectives ∧
    (prepareStyleRow puppyVerbRow).verb_text =
      joinSpace (prepareStyleRow puppyVerbRow).verbs := by
  have h := load_and_prepare_excludes_adjectives_only [] [puppyVerbRow]
    (prepareStyleRow puppyVerbRow) (by decide)
  exact ⟨h.1, h.2.1, h.2.2.1⟩

/-- C3 counterexample: for the body `see http://a.com?x` — whose link and
question mark are both stripped by cleaning — the batch entry point
produces `has_link = 0` and `has_question = 0`, while the substring tests
on the original, pre-cleaning body are both positive. -/
theorem has_link_original_body_counterexample :
    (preprocess_comments noPos noPos zeroSentiment
        [{ body := linkQuestionBody }]).map
        (fun r => (r.has_link, r.has_question)) = [(0, 0)] ∧
    containsSub httpLit linkQuestionBody = true ∧
    containsSub qmarkLit linkQuestionBody = true := by
  decide

/-- C3 (amended): for every row processed by `preprocess_comments`, the
`has_link` and `has_question` flags equal the substring tests for `http`
and `?` on the cleaned body (the `body` column is overwritten with the
cleaned text before `extract_features` runs), not on the original text. -/
theorem preprocess_flags_on_cleaned_body
    (nlpAdj nlpVerb : List Char → List (List Char))
    (vader : List Char → ℚ) (df : List CRow) :
    ∀ r, r ∈ preprocess_comments nlpAdj nlpVerb vader df →
      r.has_link = boolToInt (containsSub httpLit r.cleaned_text) ∧
      r.has_question = boolToInt (containsSub qmarkLit r.cleaned_text) ∧
      (∃ s ∈ df, r.cleaned_text = clean_text s.body) := by
  intro r hr
  rcases List.mem_map.mp hr with ⟨s, hs, rfl⟩
  exact ⟨rfl, rfl, s, hs, rfl⟩

/-- C3 witness: the amended statement at the concrete link-and-question
row. -/
theorem preprocess_flags_on_cleaned_body_witness :
    (extract_features noPos noPos zeroSentiment
        { body := clean_text linkQuestionBody }).has_link =
      boolToInt (containsSub httpLit
        (extract_features noPos noPos zeroSentiment
          { body := clean_text linkQuestionBody }).cleaned_text) ∧
    (extract_features noPos noPos zeroSentiment
        { body := clean_text linkQuestionBody }).has_question =
      boolToInt (containsSub qmarkLit
        (extract_features noPos noPos zeroSentiment
          { body := clean_text linkQuestionBody }).cleaned_text) := by
  have h := preprocess_flags_on_cleaned_body noPos noPos zeroSentiment
    [{ body := linkQuestionBody }]
    (extract_features noPos noPos zeroSentiment
      { body := clean_text linkQuestionBody })
    (by decide)
  exact ⟨h.1, h.2.1⟩

/-- C9: `preprocess_comments` overwrites the body with its cleaned text
before feature extraction: in the returned frame every row's `body` equals
its `cleaned_text`, and positionally each output row is computed entirely
from the cleaned body of the corresponding input row, so the original raw
body text survives in no column of the output. -/
theorem preprocess_comments_overwrites_body
    (nlpAdj nlpVerb : List Char → List (List Char))
    (vader : List Char → ℚ) (df : List CRow) :
    (∀ r, r ∈ preprocess_comments nlpAdj nlpVerb vader df →
      r.body = r.cleaned_text) ∧
    (∀ i (h : i < (preprocess_comments nlpAdj nlpVerb vader df).length)
        (h2 : i < df.length),
      (preprocess_comments nlpAdj nlpVerb vader df)[i] =
        extract_features nlpAdj nlpVerb vader
          { body := clean_text df[i].body }) := by
  constructor
  · intro r hr
    rcases List.mem_map.mp hr with ⟨s, _, rfl⟩
    rfl
  · intro i h h2
    simp [preprocess_comments]

/-- C9 witness: the statement at the concrete one-row frame. -/
theorem preprocess_comments_overwrites_body_witness :
    (extract_features noPos noPos zeroSentiment
        { body := clean_text linkQuestionBody }).body =
      (extract_features noPos noPos zeroSentiment
        { body := clean_text linkQuestionBody }).cleaned_text ∧
    (preprocess_comments noPos noPos zeroSentiment
        [{ body := linkQuestionBody }]).get ⟨0, by decide⟩ =
      extract_features noPos noPos zeroSentiment
        { body := clean_text linkQuestionBody } := by
  constructor
  · exact (preprocess_comments_overwrites_body noPos noPos zeroSentiment
      [{ body := linkQuestionBody }]).1 _ (by decide)
  · exact (preprocess_comments_overwrites_body noPos noPos zeroSentiment
      [{ body := linkQuestionBody }]).2 0 (by decide) (by decide)

/-- Insertion keeps the length. -/
theorem length_insertQ (x : ℚ) (l : List ℚ) :
    (insertQ x l).length = l.length + 1 := by
  induction l with
  | nil => rfl
  | cons y ys ih =>
    by_cases h : x ≤ y
    · simp [insertQ, h]
    · simp [insertQ, h, ih]

/-- Sorting keeps the length. -/
theorem length_sortQ (l : List ℚ) : (sortQ l).length = l.length := by
  induction l with
  | nil => rfl
  | cons x xs ih => simp [sortQ, length_insertQ, ih]

/-- Members of an insertion come from the inserted element or the list. -/
theorem mem_insertQ {x y : ℚ} {l : List ℚ} (h : y ∈ insertQ x l) :
    y = x ∨ y ∈ l := by
  induction l with
  | nil => simpa [insertQ] using h
  | cons z zs ih =>
    by_cases hz : x ≤ z
    · simp only [insertQ, if_pos hz, List.mem_cons] at h
      rcases h with h | h | h
      · exact Or.inl h
      · exact Or.inr (by simp [h])
      · exact Or.inr (by simp [h])
    · simp only [insertQ, if_neg hz, List.mem_cons] at h
      rcases h with h | h
      · exact Or.inr (by simp [h])
      · rcases ih h with h2 | h2
        · exact Or.inl h2
        · exact Or.inr (by simp [h2])

/-- Members of the sorted list come from the list. -/
theorem mem_sortQ {y : ℚ} {l : List ℚ} (h : y ∈ sortQ l) : y ∈ l := by
  induction l generalizing y with
  | nil => simp [sortQ] at h
  | cons x xs ih =>
    rcases mem_insertQ h with h2 | h2
    · simp [h2]
    · exact List.mem_cons.mpr (Or.inr (ih h2))

/-- The interpolation index never exceeds the (non-negative) position. -/
theorem quantIdx_cast_le {h : ℚ} (h0 : 0 ≤ h) : (quantIdx h : ℚ) ≤ h := by
  unfold quantIdx
  have hnum0 : 0 ≤ h.num := Rat.num_nonneg.mpr h0
  have hto : (h.num.toNat : ℤ) = h.num := Int.toNat_of_nonneg hnum0
  have hden : (0 : ℚ) < ((h.den : ℕ) : ℚ) := by exact_mod_cast h.den_pos
  conv_rhs => rw [← Rat.num_div_den h]
  rw [le_div_iff₀ hden]
  have h1 : h.num.toNat / h.den * h.den ≤ h.num.toNat := Nat.div_mul_le_self _ _
  calc ((h.num.toNat / h.den : ℕ) : ℚ) * ((h.den : ℕ) : ℚ)
      = ((h.num.toNat / h.den * h.den : ℕ) : ℚ) := by push_cast; ring
    _ ≤ ((h.num.toNat : ℕ) : ℚ) := by exact_mod_cast h1
    _ = ((h.num : ℤ) : ℚ) := by exact_mod_cast hto

/-- The quantile of a constant non-empty series is that constant, for any
quantile level in `[0, 1]`. -/
theorem quantile_const (l : List ℚ) (v q : ℚ) (hne : l ≠ [])
    (hq0 : 0 ≤ q) (hq1 : q ≤ 1) (hall : ∀ x ∈ l, x = v) :
    quantile l q = v := by
  unfold quantile
  simp only []
  have hlen : (sortQ l).length = l.length := length_sortQ l
  have hsall : ∀ x ∈ sortQ l, x = v := fun x hx => hall x (mem_sortQ hx)
  have hn1 : 1 ≤ l.length := by
    cases l with
    | nil => exact absurd rfl hne
    | cons a t => simp
  have hn1s : 1 ≤ (sortQ l).length := by rw [hlen]; exact hn1
  have hnn : (0 : ℚ) ≤ ((sortQ l).length : ℚ) - 1 := by
    have : (1 : ℚ) ≤ ((sortQ l).length : ℚ) := by exact_mod_cast hn1s
    linarith
  have hpos : 0 ≤ q * (((sortQ l).length : ℚ) - 1) := mul_nonneg hq0 hnn
  have hle : q * (((sortQ l).length : ℚ) - 1) ≤ ((sortQ l).length : ℚ) - 1 := by
    nlinarith
  have hidx : (quantIdx (q * (((sortQ l).length : ℚ) - 1)) : ℚ) ≤
      ((sortQ l).length : ℚ) - 1 :=
    le_trans (quantIdx_cast_le hpos) hle
  have hidx2 : quantIdx (q * (((sortQ l).length : ℚ) - 1)) < (sortQ l).length := by
    by_contra hcon
    push_neg at hcon
    have hc2 : ((sortQ l).length : ℚ) ≤
        (quantIdx (q * (((sortQ l).length : ℚ) - 1)) : ℚ) := by
      exact_mod_cast hcon
    linarith
  have hvf : (sortQ l).getD (quantIdx (q * (((sortQ l).length : ℚ) - 1))) 0 = v := by
    rw [List.getD_eq_getElem _ _ hidx2]
    exact hsall _ (List.getElem_mem hidx2)
  rw [hvf]
  by_cases hsucc : quantIdx (q * (((sortQ l).length : ℚ) - 1)) + 1 < (sortQ l).length
  · have hvf1 : (sortQ l).getD
        (quantIdx (q * (((sortQ l).length : ℚ) - 1)) + 1) v = v := by
      rw [List.getD_eq_getElem _ _ hsucc]
      exact hsall _ (List.getElem_mem hsucc)
    rw [hvf1]
    ring
  · have hvf1 : (sortQ l).getD
        (quantIdx (q * (((sortQ l).length : ℚ) - 1)) + 1) v = v :=
      List.getD_eq_default _ _ (by omega)
    rw [hvf1]
    ring

/-- Characterization of membership in the labeled output: the row comes
from the input, its cleaned text is present, and its label is 1 with the
score at or above the 75th-percentile threshold, or 0 with the score below
the 75th and at or below the 50th. -/
theorem mem_label_high {df : List LPost} {r : LPost} {lab : Nat}
    (h : (r, lab) ∈ label_high_engagement df) :
    r ∈ df ∧ r.cleaned_text.isSome = true ∧
      ((labelQ75 df ≤ r.engagement_score ∧ lab = 1) ∨
       (¬ labelQ75 df ≤ r.engagement_score ∧
         r.engagement_score ≤ labelQ50 df ∧ lab = 0)) := by
  unfold label_high_engagement at h
  simp only [] at h
  rcases List.mem_map.mp h with ⟨p, hp, hpq⟩
  rcases List.mem_filter.mp hp with ⟨hp1, hp2⟩
  rcases List.mem_map.mp hp1 with ⟨s, hs, rfl⟩
  simp only [] at hpq hp2
  split_ifs at hpq hp2 with h75 h50
  · simp only [Option.getD_some, Prod.mk.injEq] at hpq
    rcases hpq with ⟨rfl, rfl⟩
    simp only [Option.isSome_some, Bool.true_and] at hp2
    exact ⟨hs, hp2, Or.inl ⟨h75, rfl⟩⟩
  · simp only [Option.getD_some, Prod.mk.injEq] at hpq
    rcases hpq with ⟨rfl, rfl⟩
    simp only [Option.isSome_some, Bool.true_and] at hp2
    exact ⟨hs, hp2, Or.inr ⟨h75, h50, rfl⟩⟩
  · simp at hp2

/-- A row of the input with present cleaned text and score at or above
the 75th-percentile threshold appears in the output with label 1. -/
theorem label_high_mem_of (df : List LPost) (r : LPost) (hr : r ∈ df)
    (hc : r.cleaned_text.isSome = true)
    (h75 : r.engagement_score ≥ labelQ75 df) :
    (r, 1) ∈ label_high_engagement df := by
  unfold label_high_engagement
  simp only []
  apply List.mem_map.mpr
  refine ⟨(r, some 1), ?_, rfl⟩
  apply List.mem_filter.mpr
  refine ⟨?_, by simp [hc]⟩
  apply List.mem_map.mpr
  exact ⟨r, hr, by rw [if_pos h75]⟩

/-- C1 (amended): `label_high_engagement` never assigns label 1 to a row
below the dataset's 75th-percentile threshold, never assigns label 0 to a
row strictly above the 50th-percentile threshold (at the threshold itself
label 0 is assigned), and keeps no row whose score lies strictly between
the two thresholds. -/
theorem label_high_engagement_thresholds (df : List LPost) :
    ∀ p, p ∈ label_high_engagement df →
      (p.2 = 1 → labelQ75 df ≤ p.1.engagement_score) ∧
      (p.2 = 0 → p.1.engagement_score ≤ labelQ50 df) ∧
      ¬ (labelQ50 df < p.1.engagement_score ∧
         p.1.engagement_score < labelQ75 df) := by
  rintro ⟨r, lab⟩ hp
  rcases mem_label_high hp with ⟨hr, hc, hcase⟩
  rcases hcase with ⟨h75, rfl⟩ | ⟨h75, h50, rfl⟩
  · refine ⟨fun _ => h75, fun h0 => by simp at h0, ?_⟩
    rintro ⟨_, hlt⟩
    exact absurd h75 (not_le.mpr hlt)
  · refine ⟨fun h1 => by simp at h1, fun _ => h50, ?_⟩
    rintro ⟨hgt, _⟩
    exact absurd h50 (not_le.mpr hgt)

/-- Evaluation helper: `quantile` at explicitly computed pieces. -/
theorem quantile_eval (l : List ℚ) (q : ℚ) (s : List ℚ) (f : Nat)
    (g vf vf1 : ℚ) (hs : sortQ l = s)
    (hf : quantIdx (q * ((s.length : ℚ) - 1)) = f)
    (hg : q * ((s.length : ℚ) - 1) - (f : ℚ) = g)
    (hvf : s.getD f 0 = vf)
    (hvf1 : s.getD (f + 1) vf = vf1) :
    quantile l q = vf + g * (vf1 - vf) := by
  unfold quantile
  simp only []
  rw [hs, hf, hg, hvf, hvf1]

/-- The interpolation index of the 50th percentile of five values. -/
theorem quantIdx_half_five : quantIdx (1 / 2 * (((5 : ℕ) : ℚ) - 1)) = 2 := by
  norm_num [quantIdx, Rat.num_ofNat, Rat.den_ofNat]
  rfl

/-- The interpolation index of the 75th percentile of five values. -/
theorem quantIdx_threequarter_five :
    quantIdx (3 / 4 * (((5 : ℕ) : ℚ) - 1)) = 3 := by
  norm_num [quantIdx, Rat.num_ofNat, Rat.den_ofNat]
  rfl

/-- On the edge dataset the 50th-percentile threshold is 5. -/
theorem labelQ50_dfQuantEdge : labelQ50 dfQuantEdge = 5 := by
  have h := quantile_eval (dfQuantEdge.map (fun r => r.engagement_score))
    (1 / 2) [0, 5, 5, 100, 100] 2 0 5 100 (by decide) quantIdx_half_five
    (by norm_num) rfl rfl
  rw [labelQ50, h]
  norm_num

/-- On the edge dataset the 75th-percentile threshold is 100. -/
theorem labelQ75_dfQuantEdge : labelQ75 dfQuantEdge = 100 := by
  have h := quantile_eval (dfQuantEdge.map (fun r => r.engagement_score))
    (3 / 4) [0, 5, 5, 100, 100] 3 0 100 100 (by decide)
    quantIdx_threequarter_five (by norm_num) rfl rfl
  rw [labelQ75, h]
  norm_num

/-- The labeled output of the edge dataset, computed in full. -/
theorem label_dfQuantEdge_eval : label_high_engagement dfQuantEdge =
    [(lpRow 0, 0), (lpRow 5, 0), (lpRow 5, 0),
     (lpRow 100, 1), (lpRow 100, 1)] := by
  unfold label_high_engagement
  simp only [labelQ50_dfQuantEdge, labelQ75_dfQuantEdge]
  norm_num [dfQuantEdge, lpRow]

/-- C1 counterexample: on the dataset with scores `[0, 5, 5, 100, 100]`
the 50th-percentile threshold is 5 and the 75th is 100, and the row with
score 5 — at the 50th threshold and below the 75th — is assigned label 0,
contradicting the claim's "never assigns label 0 to a row at or above the
50th-percentile threshold that is also below the 75th". -/
theorem label_zero_at_median_counterexample :
    (lpRow 5, 0) ∈ label_high_engagement dfQuantEdge ∧
    labelQ50 dfQuantEdge ≤ (lpRow 5).engagement_score ∧
    (lpRow 5).engagement_score < labelQ75 dfQuantEdge := by
  refine ⟨?_, ?_, ?_⟩
  · rw [label_dfQuantEdge_eval]
    simp
  · rw [labelQ50_dfQuantEdge]
    norm_num [lpRow]
  · rw [labelQ75_dfQuantEdge]
    norm_num [lpRow]

/-- C1 witness: the amended statement at concrete rows of the edge
dataset. -/
theorem label_high_engagement_thresholds_witness :
    labelQ75 dfQuantEdge ≤ (lpRow 100).engagement_score ∧
    ¬ (labelQ50 dfQuantEdge < (lpRow 0).engagement_score ∧
       (lpRow 0).engagement_score < labelQ75 dfQuantEdge) := by
  constructor
  · exact (label_high_engagement_thresholds dfQuantEdge (lpRow 100, 1)
      (by rw [label_dfQuantEdge_eval]; simp)).1 rfl
  · exact (label_high_engagement_thresholds dfQuantEdge (lpRow 0, 0)
      (by rw [label_dfQuantEdge_eval]; simp)).2.2

/-- C10: when every row of the dataset carries the same engagement score
(so the 75th and 50th percentile thresholds coincide), the label-1 branch
takes precedence at the shared threshold: every output row is labeled 1,
and every input row with a present cleaned text appears in the output with
label 1 — none is dropped. -/
theorem label_high_engagement_degenerate_all_high (df : List LPost) (v : ℚ)
    (hall : ∀ r ∈ df, r.engagement_score = v) :
    (∀ p, p ∈ label_high_engagement df →
      p.2 = 1 ∧ p.1.cleaned_text.isSome = true) ∧
    (∀ r ∈ df, r.cleaned_text.isSome = true →
      (r, 1) ∈ label_high_engagement df) := by
  have hq75 : ∀ r ∈ df, labelQ75 df ≤ r.engagement_score := by
    intro r hr
    have hne : df.map (fun s => s.engagement_score) ≠ [] := by
      cases df with
      | nil => exact absurd hr (List.not_mem_nil r)
      | cons a t => simp
    have hq : labelQ75 df = v := by
      apply quantile_const _ v (3 / 4) hne (by norm_num) (by norm_num)
      intro x hx
      rcases List.mem_map.mp hx with ⟨s, hs, rfl⟩
      exact hall s hs
    rw [hq, hall r hr]
  constructor
  · rintro ⟨r, lab⟩ hp
    rcases mem_label_high hp with ⟨hr, hc, hcase⟩
    rcases hcase with ⟨_, rfl⟩ | ⟨h75, _, _⟩
    · exact ⟨rfl, hc⟩
    · exact absurd (hq75 r hr) h75
  · intro r hr hc
    exact label_high_mem_of df r hr hc (hq75 r hr)

/-- C10 witness: on the concrete constant-score dataset every output row
is labeled 1 and the rows with present cleaned text all appear. -/
theorem label_high_engagement_degenerate_all_high_witness :
    (∀ p, p ∈ label_high_engagement dfConstant →
      p.2 = 1 ∧ p.1.cleaned_text.isSome = true) ∧
    (lpRow 7, 1) ∈ label_high_engagement dfConstant := by
  have h := label_high_engagement_degenerate_all_high dfConstant 7 (by decide)
  exact ⟨h.1, h.2 (lpRow 7) (by decide) (by decide)⟩

/-- `Char.toLower` is idempotent: lowering maps the upper-case range into
the lower-case range, which lowering fixes. -/
theorem toLower_idem (c : Char) : c.toLower.toLower = c.toLower := by
  by_cases h : c.toNat ≥ 65 ∧ c.toNat ≤ 90
  · have h1 : Char.toLower c = Char.ofNat (c.toNat + 32) := by
      unfold Char.toLower
      rw [if_pos h]
    rw [h1]
    obtain ⟨ha, hb⟩ := h
    set n := c.toNat with hn
    clear_value n
    interval_cases n
    all_goals decide
  · have h1 : Char.toLower c = c := by
      unfold Char.toLower
      rw [if_neg h]
    rw [h1, h1]

/-- The hyperlink-stripping scan only keeps characters of its input. -/
theorem mem_subUrlAux {c : Char} {b : Bool} {s : List Char}
    (h : c ∈ subUrlAux b s) : c ∈ s := by
  induction b, s using subUrlAux.induct <;> simp_all [subUrlAux] <;> tauto

/-- The parenthesis scan returns a suffix of its input. -/
theorem findParen_suffix {l r : List Char} (h : findParen l = some r) :
    List.IsSuffix r l := by
  induction l using findParen.induct with
  | case1 => simp [findParen] at h
  | case2 rest =>
    simp only [findParen, Option.some.injEq] at h
    exact h ▸ List.suffix_cons _ _
  | case3 rest => simp [findParen] at h
  | case4 a rest h1 h2 ih =>
    simp only [findParen] at h
    exact (ih h).trans (List.suffix_cons a rest)

/-- The markdown-link scan returns a suffix of its input. -/
theorem findMd_suffix {l r : List Char} (h : findMd l = some r) :
    List.IsSuffix r l := by
  induction l using findMd.induct with
  | case1 => simp [findMd] at h
  | case2 rest => simp [findMd] at h
  | case3 rest r2 hfp =>
    simp only [findMd, hfp, Option.some.injEq] at h
    subst h
    exact ((findParen_suffix hfp).trans (List.suffix_cons _ _)).trans
      (List.suffix_cons _ _)
  | case4 rest hfp ih =>
    simp only [findMd, hfp] at h
    exact (ih h).trans (List.suffix_cons _ _)
  | case5 a rest h1 h2 ih =>
    simp only [findMd] at h
    exact (ih h).trans (List.suffix_cons _ _)

/-- The fuelled markdown-stripping pass only keeps characters of its
input. -/
theorem mem_subMdF {c : Char} {fuel : Nat} {l : List Char}
    (h : c ∈ subMdF fuel l) : c ∈ l := by
  induction fuel, l using subMdF.induct with
  | case1 l => exact h
  | case2 fuel => simp [subMdF] at h
  | case3 fuel rest r hmd ih =>
    simp only [subMdF, hmd] at h
    have hsub := findMd_suffix hmd
    exact List.mem_cons.mpr (Or.inr (hsub.sublist.subset (ih h)))
  | case4 fuel rest hmd ih =>
    simp only [subMdF, hmd] at h
    rcases List.mem_cons.mp h with rfl | h2
    · exact List.mem_cons_self _ _
    · exact List.mem_cons.mpr (Or.inr (ih h2))
  | case5 fuel a rest h1 ih =>
    simp only [subMdF] at h
    rcases List.mem_cons.mp h with rfl | h2
    · exact List.mem_cons_self _ _
    · exact List.mem_cons.mpr (Or.inr (ih h2))

/-- Stripping the ends only keeps characters of the input. -/
theorem mem_pyStrip {c : Char} {y : List Char} (h : c ∈ pyStrip y) :
    c ∈ y := by
  unfold pyStrip at h
  rw [List.mem_reverse] at h
  have h2 := List.dropWhile_subset _ h
  rw [List.mem_reverse] at h2
  exact List.dropWhile_subset _ h2

/-- Characters of the whitespace-collapsing scan's output come from its
input or are the replacement space. -/
theorem mem_squeezeAux_or {c : Char} {b : Bool} {x : List Char}
    (h : c ∈ squeezeAux b x) : c = ' ' ∨ c ∈ x := by
  induction b, x using squeezeAux.induct <;> simp_all [squeezeAux] <;> tauto

/-- Every whitespace character the collapsing scan outputs is the
replacement space. -/
theorem mem_squeezeAux_ws {c : Char} {b : Bool} {x : List Char}
    (h : c ∈ squeezeAux b x) (hw : isWs c = true) : c = ' ' := by
  induction x generalizing b with
  | nil =>
    cases b <;> simp [squeezeAux] at h
  | cons d ds ih =>
    by_cases hd : isWs d
    · cases b with
      | true =>
        rw [show squeezeAux true (d :: ds) = squeezeAux true ds by
          simp [squeezeAux, hd]] at h
        exact ih h
      | false =>
        rw [show squeezeAux false (d :: ds) = ' ' :: squeezeAux true ds by
          simp [squeezeAux, hd]] at h
        rcases List.mem_cons.mp h with rfl | h2
        · rfl
        · exact ih h2
    · have hstep : squeezeAux b (d :: ds) = d :: squeezeAux false ds := by
        cases b <;> simp [squeezeAux, hd]
      rw [hstep] at h
      rcases List.mem_cons.mp h with rfl | h2
      · exact absurd hw (by simp [hd])
      · exact ih h2

/-- In skip state the collapsing scan never emits a whitespace head. -/
theorem squeezeAux_head_ws {x : List Char} {h : Char}
    (hh : (squeezeAux true x).head? = some h) : isWs h = false := by
  induction x with
  | nil => simp [squeezeAux] at hh
  | cons d ds ih =>
    by_cases hd : isWs d
    · rw [show squeezeAux true (d :: ds) = squeezeAux true ds by
        simp [squeezeAux, hd]] at hh
      exact ih hh
    · rw [show squeezeAux true (d :: ds) = d :: squeezeAux false ds by
        simp [squeezeAux, hd]] at hh
      simp only [List.head?_cons, Option.some.injEq] at hh
      subst hh
      simpa using hd

/-- The collapsing scan's output has no two adjacent whitespace
characters. -/
theorem chain_squeezeAux (b : Bool) (x : List Char) :
    List.Chain' noWsPair (squeezeAux b x) := by
  induction x generalizing b with
  | nil => cases b <;> simp [squeezeAux]
  | cons c cs ih =>
    by_cases hw : isWs c
    · cases b with
      | true =>
        rw [show squeezeAux true (c :: cs) = squeezeAux true cs by
          simp [squeezeAux, hw]]
        exact ih true
      | false =>
        rw [show squeezeAux false (c :: cs) = ' ' :: squeezeAux true cs by
          simp [squeezeAux, hw]]
        rw [List.chain'_cons']
        refine ⟨?_, ih true⟩
        intro y hy
        have hwy : isWs y = false := squeezeAux_head_ws (Option.mem_def.mp hy)
        intro hcon
        rw [hwy] at hcon
        exact Bool.false_ne_true hcon.2
    · have hstep : squeezeAux b (c :: cs) = c :: squeezeAux false cs := by
        cases b <;> simp [squeezeAux, hw]
      rw [hstep, List.chain'_cons']
      refine ⟨?_, ih false⟩
      intro y hy hcon
      exact hw (by simpa using hcon.1)

/-- In skip state, on input with a non-whitespace head, the collapsing
scan behaves as in normal state. -/
theorem squeezeAux_true_eq_false {cs : List Char}
    (h : ∀ d, cs.head? = some d → isWs d = false) :
    squeezeAux true cs = squeezeAux false cs := by
  cases cs with
  | nil => rfl
  | cons d ds =>
    have hd := h d rfl
    simp [squeezeAux, hd]

/-- Whitespace-collapsing fixes any list that is already collapsed: all
whitespace is the single space and no two spaces are adjacent. -/
theorem squeezeWs_eq_self {x : List Char}
    (hmem : ∀ c ∈ x, isWs c = true → c = ' ')
    (hch : List.Chain' noWsPair x) :
    squeezeWs x = x := by
  unfold squeezeWs
  induction x with
  | nil => rfl
  | cons c cs ih =>
    rw [List.chain'_cons'] at hch
    by_cases hw : isWs c
    · have hc : c = ' ' := hmem c (List.mem_cons_self _ _) hw
      have hline : ∀ d, cs.head? = some d → isWs d = false := by
        intro d hd
        by_contra hcon
        refine hch.1 d (Option.mem_def.mpr hd) ⟨hw, ?_⟩
        simpa using hcon
      rw [show squeezeAux false (c :: cs) = ' ' :: squeezeAux true cs by
        simp [squeezeAux, hw]]
      rw [squeezeAux_true_eq_false hline, hc]
      exact congrArg _ (ih (fun d hd => hmem d (List.mem_cons.mpr (Or.inr hd)))
        hch.2)
    · rw [show squeezeAux false (c :: cs) = c :: squeezeAux false cs by
        simp [squeezeAux, hw]]
      exact congrArg _ (ih (fun d hd => hmem d (List.mem_cons.mpr (Or.inr hd)))
        hch.2)

/-- A suffix of a chain is a chain. -/
theorem chain_suffix {R : Char → Char → Prop} {l l2 : List Char}
    (hs : List.IsSuffix l2 l) (h : List.Chain' R l) : List.Chain' R l2 := by
  obtain ⟨pre, rfl⟩ := hs
  exact (List.chain'_append.mp h).2.1

/-- `noWsPair` chains are preserved by reversal. -/
theorem chain_rev {l : List Char} (h : List.Chain' noWsPair l) :
    List.Chain' noWsPair l.reverse := by
  rw [List.chain'_reverse]
  exact h.imp (fun a b hab hc => hab ⟨hc.2, hc.1⟩)

/-- Stripping the ends preserves the collapsed-whitespace invariant. -/
theorem chain_pyStrip {y : List Char} (h : List.Chain' noWsPair y) :
    List.Chain' noWsPair (pyStrip y) := by
  unfold pyStrip
  exact chain_rev (chain_suffix (List.dropWhile_suffix _)
    (chain_rev (chain_suffix (List.dropWhile_suffix _) h)))

/-- The head of a stripped list is not whitespace. -/
theorem head_pyStrip_not_ws {y : List Char} {h : Char}
    (hh : (pyStrip y).head? = some h) : isWs h = false := by
  unfold pyStrip at hh
  rw [List.head?_reverse] at hh
  have hne : ((y.dropWhile isWs).reverse.dropWhile isWs) ≠ [] := by
    intro hnil
    rw [hnil] at hh
    simp at hh
  obtain ⟨pre, hpre⟩ := List.dropWhile_suffix
    (l := (y.dropWhile isWs).reverse) isWs
  have hlast : ((y.dropWhile isWs).reverse).getLast? = some h := by
    rw [← hpre, List.getLast?_append_of_ne_nil _ hne]
    exact hh
  rw [List.getLast?_reverse] at hlast
  have hmatch := List.head?_dropWhile_not isWs y
  rw [hlast] at hmatch
  exact hmatch

/-- The last character of a stripped list is not whitespace. -/
theorem last_pyStrip_not_ws {y : List Char} {h : Char}
    (hh : (pyStrip y).getLast? = some h) : isWs h = false := by
  unfold pyStrip at hh
  rw [List.getLast?_reverse] at hh
  have hmatch := List.head?_dropWhile_not isWs (y.dropWhile isWs).reverse
  rw [hh] at hmatch
  exact hmatch

/-- `dropWhile` fixes a list whose head fails the predicate. -/
theorem dropWhile_eq_self_of_head {p : Char → Bool} {z : List Char}
    (h : ∀ d, z.head? = some d → p d = false) : z.dropWhile p = z := by
  cases z with
  | nil => rfl
  | cons d ds => exact List.dropWhile_cons_of_neg (by simp [h d rfl])

/-- Stripping fixes a list with non-whitespace head and last character. -/
theorem pyStrip_eq_self {y : List Char}
    (hh : ∀ d, y.head? = some d → isWs d = false)
    (hl : ∀ d, y.getLast? = some d → isWs d = false) :
    pyStrip y = y := by
  unfold pyStrip
  rw [dropWhile_eq_self_of_head hh]
  rw [dropWhile_eq_self_of_head (fun d hd => hl d (by
    rw [← List.head?_reverse]; exact hd))]
  exact List.reverse_reverse y

/-- Collapsing whitespace and stripping the ends is idempotent. -/
theorem collapse_idem (x : List Char) :
    pyStrip (squeezeWs (pyStrip (squeezeWs x))) = pyStrip (squeezeWs x) := by
  have hmem : ∀ c ∈ squeezeWs x, isWs c = true → c = ' ' :=
    fun c hc => mem_squeezeAux_ws hc
  have hch : List.Chain' noWsPair (squeezeWs x) := chain_squeezeAux false x
  have hmem2 : ∀ c ∈ pyStrip (squeezeWs x), isWs c = true → c = ' ' :=
    fun c hc => hmem c (mem_pyStrip hc)
  have hch2 := chain_pyStrip hch
  rw [squeezeWs_eq_self hmem2 hch2]
  exact pyStrip_eq_self (fun d hd => head_pyStrip_not_ws hd)
    (fun d hd => last_pyStrip_not_ws hd)

/-- Every character of a cleaned text is fixed by lower-casing: it is the
replacement space or the lowering of an input character. -/
theorem lower_mem_clean_text {t : List Char} {c : Char}
    (h : c ∈ clean_text t) : c.toLower = c := by
  have h1 : c ∈ squeezeWs (subMd (subUrl (pyLower t))) := mem_pyStrip h
  rcases mem_squeezeAux_or h1 with rfl | h2
  · decide
  · have h3 : c ∈ subUrl (pyLower t) := mem_subMdF h2
    have h4 : c ∈ pyLower t := mem_subUrlAux h3
    rcases List.mem_map.mp h4 with ⟨d, _, rfl⟩
    exact toLower_idem d

/-- Lower-casing fixes a list of lower-casing-fixed characters. -/
theorem pyLower_eq_self {s : List Char} (h : ∀ c ∈ s, c.toLower = c) :
    pyLower s = s := by
  unfold pyLower
  conv_rhs => rw [← List.map_id s]
  exact List.map_congr_left h

/-- C2 counterexample: `clean_text` is not idempotent. On the input
`ht[x](y)tp://a` the markdown-link removal splices the remaining pieces
into the hyperlink `http://a`, which a second application then strips to
the empty string. -/
theorem clean_text_not_idempotent :
    clean_text (clean_text mdSpliceText) ≠ clean_text mdSpliceText ∧
    clean_text mdSpliceText = "http://a".data ∧
    clean_text (clean_text mdSpliceText) = [] := by
  decide

/-- C2 (amended): `clean_text` is idempotent on exactly the texts whose
once-cleaned form is a fixed point of the two stripping passes — i.e.
whenever removing hyperlinks and markdown links changes nothing on the
cleaned text (lower-casing and whitespace collapsing always fix a cleaned
text); in general a markdown-link removal can splice a new hyperlink and
idempotence fails. -/
theorem clean_text_conditional_idempotent (t : List Char)
    (h1 : subUrl (clean_text t) = clean_text t)
    (h2 : subMd (clean_text t) = clean_text t) :
    clean_text (clean_text t) = clean_text t := by
  have hlow : pyLower (clean_text t) = clean_text t :=
    pyLower_eq_self (fun c hc => lower_mem_clean_text hc)
  show pyStrip (squeezeWs (subMd (subUrl (pyLower (clean_text t))))) =
    clean_text t
  rw [hlow, h1, h2]
  exact collapse_idem (subMd (subUrl (pyLower t)))

/-- C2 witness: a plain text — `hello world` — whose cleaned form is a
fixed point of both stripping passes, on which cleaning twice equals
cleaning once. -/
theorem clean_text_conditional_idempotent_witness :
    subUrl (clean_text plainGreeting) = clean_text plainGreeting ∧
    subMd (clean_text plainGreeting) = clean_text plainGreeting ∧
    clean_text (clean_text plainGreeting) = clean_text plainGreeting :=
  ⟨by decide, by decide,
    clean_text_conditional_idempotent plainGreeting (by decide) (by decide)⟩

end PetProj
